import Mathlib

/-!
Shallow embedding of the windowed page-rendering and cache engine of an
Electron/React PDF viewer, together with proofs settling the frozen claims
about it.  The embedded functions mirror, definition by definition, the
TypeScript sources:

* src/src/hooks/utils.ts — calculateStartEnd, renderCanvas,
  getPagesDataArray, getWidestPage, processPage;
* src/src/hooks/usePdfLayout.ts — computeLayout;
* src/src/hooks/useContinuousPdfRenderer.ts — schedulePreRendering and the
  layout effect that launches it.

JavaScript numbers are modelled as rationals (ℚ) for document-space
coordinates and scales, and as ℕ / ℤ for page numbers and page indices
(cacheEnd can be -1, so cache-window bounds are ℤ).  Asynchronous promise
chains are modelled by splitting each operation into its synchronous part
and an explicit list of pending tasks that are settled afterwards; JS is
single-threaded, so a settlement step runs atomically against the state at
settlement time, exactly like a promise continuation.
-/

namespace PdfViewer

/-- A page viewport: rendering-space width and height at some scale
(pdfjs PageViewport, reduced to the two fields the engine reads). -/
structure Viewport where
  width : ℚ
  height : ℚ
deriving DecidableEq, Repr

/-- Entry of the document layout: the page viewport plus the cumulative
vertical offset of the page top (interface PageData in utils.ts). -/
structure PageData where
  viewport : Viewport
  yOffset : ℚ
deriving DecidableEq, Repr

/-- Index of the first element satisfying p, as the forward for-loop of
calculateStartEnd (utils.ts lines 33-42) computes it: none plays the role
of the POSITIVE_INFINITY sentinel. -/
def findFirstIdx {α : Type} (p : α → Bool) : List α → Option ℕ
  | [] => none
  | a :: l => if p a then some 0 else (findFirstIdx p l).map (· + 1)

/-- Index of the last element satisfying p, as the reverse for-loop of
calculateStartEnd (utils.ts lines 45-53) computes it. -/
def findLastIdx {α : Type} (p : α → Bool) (l : List α) : Option ℕ :=
  (findFirstIdx p l.reverse).map (fun k => l.length - 1 - k)

/-- The visibility test applied to one page by both loops of
calculateStartEnd (utils.ts line 38 and line 49):
pageBottom >= visibleStart && yOffset <= visibleEnd. -/
def visiblePred (visibleStart visibleEnd : ℚ) (pd : PageData) : Bool :=
  decide (visibleStart ≤ pd.yOffset + pd.viewport.height) &&
    decide (pd.yOffset ≤ visibleEnd)

/-- Result of calculateStartEnd: the source returns the tuple
[visibleStart, visibleEnd, cacheStart, cacheEnd]. -/
structure WindowResult where
  visibleStart : ℚ
  visibleEnd : ℚ
  cacheStart : ℤ
  cacheEnd : ℤ
deriving DecidableEq, Repr

/-- calculateStartEnd (utils.ts lines 19-65).  x is the page-layout array,
N the page count, dh the scroll offset, H the visible height, Q the cache
margin.  The two loops scan for the first and the last page index whose
vertical span meets [visibleStart, visibleEnd]; when the first loop finds
nothing both indices default to 0 (the second loop then finds nothing
either, since both loops test the same predicate on the same array).
Finally the range is widened by Q and clamped to [0, N-1]. -/
def calculateStartEnd (x : List PageData) (N : ℤ) (dh H : ℚ) (Q : ℤ) :
    WindowResult :=
  let visibleStart := dh
  let visibleEnd := dh + H
  let fv := findFirstIdx (visiblePred visibleStart visibleEnd) x
  let lv := findLastIdx (visiblePred visibleStart visibleEnd) x
  let fl : ℤ × ℤ :=
    match fv, lv with
    | some i, some j => ((i : ℤ), (j : ℤ))
    | _, _ => (0, 0)
  ⟨visibleStart, visibleEnd, max 0 (fl.1 - Q), min (N - 1) (fl.2 + Q)⟩

/-- Sum of the viewport heights of a layout fragment. -/
def heightSum (x : List PageData) : ℚ :=
  (x.map (fun pd => pd.viewport.height)).sum

/-- The layout tiles document space contiguously starting at coordinate y:
each yOffset equals the running coordinate and heights are nonnegative. -/
def tilesFromB (y : ℚ) : List PageData → Bool
  | [] => true
  | pd :: rest =>
      decide (pd.yOffset = y) && decide (0 ≤ pd.viewport.height)
        && tilesFromB (y + pd.viewport.height) rest

/-- Test fixture: the layout of a 10-page document whose pages all have
height 800 at the active scale (Scenarios A and B of the spec). -/
def ten800 : List PageData :=
  [⟨⟨600, 800⟩, 0⟩, ⟨⟨600, 800⟩, 800⟩, ⟨⟨600, 800⟩, 1600⟩, ⟨⟨600, 800⟩, 2400⟩,
   ⟨⟨600, 800⟩, 3200⟩, ⟨⟨600, 800⟩, 4000⟩, ⟨⟨600, 800⟩, 4800⟩, ⟨⟨600, 800⟩, 5600⟩,
   ⟨⟨600, 800⟩, 6400⟩, ⟨⟨600, 800⟩, 7200⟩]

/-- Test fixture: a 2-page contiguous layout with pages of height 10. -/
def twoPages : List PageData :=
  [⟨⟨600, 10⟩, 0⟩, ⟨⟨600, 10⟩, 10⟩]

/-- Intrinsic description of one page of the loaded document: width and
height at scale 1 (what page.getViewport reports before scaling) plus
whether pdfDoc.getPage resolves for it (the Geometry Provider may fail per
page). -/
structure PageSpec where
  width : ℚ
  height : ℚ
  getPageOk : Bool
deriving DecidableEq, Repr

/-- The loaded document (PDFDocumentProxy), reduced to the per-page data
the engine reads. -/
structure PdfDoc where
  pages : List PageSpec
deriving DecidableEq, Repr

/-- pdfDoc.numPages. -/
def PdfDoc.numPages (doc : PdfDoc) : ℕ := doc.pages.length

/-- pdfDoc.getPage(pageNumber): 1-indexed, asynchronous, may reject; none
models a rejected promise (out-of-range page or Geometry Provider
failure). -/
def getPage (doc : PdfDoc) (pageNumber : ℕ) : Option PageSpec :=
  match doc.pages[pageNumber - 1]? with
  | some p => if p.getPageOk then some p else none
  | none => none

/-- page.getViewport({ scale }): the intrinsic size multiplied by the
scale. -/
def PageSpec.getViewport (p : PageSpec) (scale : ℚ) : Viewport :=
  ⟨p.width * scale, p.height * scale⟩

/-- Pages 1..n fetched in order, as the Promise.all of getPagesDataArray
(utils.ts line 312-314) awaits them: the whole fetch rejects if any single
getPage rejects. -/
def fetchPages (doc : PdfDoc) : ℕ → Option (List PageSpec)
  | 0 => some []
  | n + 1 =>
      match fetchPages doc n, getPage doc (n + 1) with
      | some l, some p => some (l ++ [p])
      | _, _ => none

/-- The awaited result of Promise.all(getPage(1), ..., getPage(numPages)). -/
def allPages (doc : PdfDoc) : Option (List PageSpec) :=
  fetchPages doc doc.numPages

/-- The reduce step of getPagesDataArray (utils.ts lines 316-322): push the
page entry at the current cumulative offset, then advance the offset by the
viewport height. -/
def pagesReduceStep (scale : ℚ) (acc : List PageData × ℚ) (page : PageSpec) :
    List PageData × ℚ :=
  let viewport := page.getViewport scale
  (acc.1 ++ [⟨viewport, acc.2⟩], acc.2 + viewport.height)

/-- getPagesDataArray (utils.ts lines 306-332): fetch all pages, then fold
the cumulative-offset reduce over them starting from ([], 0).  Returns
(pagesDataLocal, totalHeightLocal); none models the rejected promise. -/
def getPagesDataArray (doc : PdfDoc) (scale : ℚ) :
    Option (List PageData × ℚ) :=
  (allPages doc).map (fun pages => pages.foldl (pagesReduceStep scale) ([], 0))

/-- Recursive description of the layout the reduce builds: each page at the
running offset y. -/
def layoutFrom (scale : ℚ) (y : ℚ) : List PageSpec → List PageData
  | [] => []
  | p :: rest =>
      ⟨p.getViewport scale, y⟩ ::
        layoutFrom scale (y + (p.getViewport scale).height) rest

/-- Sum of the scaled heights of a list of page specifications. -/
def specHeightSum (scale : ℚ) (ps : List PageSpec) : ℚ :=
  (ps.map (fun p => (p.getViewport scale).height)).sum

/-- Fallback entry used to model a JavaScript array read at an index that
the code keeps in bounds. -/
def defaultPageData : PageData := ⟨⟨0, 0⟩, 0⟩

/-- One step of the reduce in getWidestPage (utils.ts lines 348-352):
keep the index of the wider page, preferring the earlier index on ties. -/
def widestStep (pd : List PageData) (maxIndex : ℕ) (ip : ℕ × PageData) : ℕ :=
  if (pd.getD maxIndex defaultPageData).viewport.width < ip.2.viewport.width
  then ip.1 else maxIndex

/-- The index reduce of getWidestPage: fold over the array with its
indices, starting from index 0. -/
def widestPageIndex (pd : List PageData) : ℕ :=
  pd.enum.foldl (widestStep pd) 0

/-- getWidestPage (utils.ts lines 343-364): compute the scale-1 layout,
pick the index of the widest viewport, fetch that page; if that fetch
rejects, the catch falls back to fetching page 1. -/
def getWidestPage (doc : PdfDoc) : Option PageSpec :=
  match getPagesDataArray doc 1 with
  | none => none
  | some (pagesDataLocal, _) =>
      match getPage doc (widestPageIndex pagesDataLocal + 1) with
      | some page => some page
      | none => getPage doc 1

/-- computeLayout of usePdfLayout.ts (lines 38-51): scale is the container
width divided by the widest page's scale-1 viewport width, and the layout
is getPagesDataArray at that scale.  Returns (scale, pagesData,
totalHeight); none models the caught error path, which publishes no
layout. -/
def computeLayout (doc : PdfDoc) (containerWidth : ℚ) :
    Option (ℚ × List PageData × ℚ) :=
  match getWidestPage doc with
  | none => none
  | some widestPage =>
      let baseViewport := widestPage.getViewport 1
      let scale := containerWidth / baseViewport.width
      (getPagesDataArray doc scale).map (fun r => (scale, r.1, r.2))

/-- A rendered raster surface, reduced to what the claims observe: which
page the offscreen canvas was created for and whether the page content was
actually rendered into it (false = the blank surface createCanvasElement
returns). -/
structure Canvas where
  page : ℕ
  rendered : Bool
deriving DecidableEq, Repr

/-- The blank offscreen canvas createCanvasElement produces (utils.ts lines
152-164). -/
def blankCanvas (p : ℕ) : Canvas := ⟨p, false⟩

/-- The canvas after page.render succeeded for page p. -/
def renderedCanvas (p : ℕ) : Canvas := ⟨p, true⟩

/-- The raster cache: a JavaScript Map from page number to canvas,
modelled as an association list in insertion order. -/
abbrev CacheMap := List (ℕ × Canvas)

/-- Map.get: the value stored at key k, if any. -/
def mapGet (m : CacheMap) (k : ℕ) : Option Canvas :=
  (m.find? (fun e => e.1 == k)).map (fun e => e.2)

/-- Map.set: overwrite the entry at key k or append a new one. -/
def mapSet (m : CacheMap) (k : ℕ) (v : Canvas) : CacheMap :=
  if m.any (fun e => e.1 == k)
  then m.map (fun e => if e.1 == k then (k, v) else e)
  else m ++ [(k, v)]

/-- The promise chain of renderCanvas (utils.ts lines 175-210) before its
final catch: create the offscreen canvas, await getPage (which may
reject), render into the canvas, then write the canvas into the raster
cache and resolve with it.  The cache write happens only on this success
path. -/
def renderCanvasTry (doc : PdfDoc) (pageNumber : ℕ) (cache : CacheMap) :
    Except Unit (CacheMap × Canvas) :=
  match getPage doc pageNumber with
  | none => Except.error ()
  | some _page =>
      let canvasElement := renderedCanvas pageNumber
      Except.ok (mapSet cache pageNumber canvasElement, canvasElement)

/-- renderCanvas (utils.ts lines 175-217): the chain above with its catch,
which logs the error and still resolves with the (blank) canvas element,
leaving the cache untouched. -/
def renderCanvas (doc : PdfDoc) (pageNumber : ℕ) (cache : CacheMap) :
    CacheMap × Canvas :=
  match renderCanvasTry doc pageNumber cache with
  | Except.ok r => r
  | Except.error _ => (cache, blankCanvas pageNumber)

/-- Mutable state threaded through the render pipeline: the raster cache
(pageCanvasCacheRef), the render lock set (pageRenderLockRef), plus two
observation logs — the pages for which a renderCanvas call was issued and
the pages drawn onto the on-screen context by drawPageSection. -/
structure RenderState where
  cache : CacheMap
  lock : Finset ℕ
  launches : List ℕ
  draws : List ℕ
deriving DecidableEq

/-- The empty initial state: empty caches, no locks, no activity. -/
def initialState : RenderState := ⟨[], ∅, [], []⟩

/-- An asynchronous task queued by processPage: the canvas render for a
page, remembering whether the page was visible when the task was
launched (the .then continuation draws only then). -/
structure PendingTask where
  pageNumber : ℕ
  visible : Bool
deriving DecidableEq, Repr

/-- What one processPage call returns: the state after its synchronous
part, the asynchronous tasks it queued, and the cache-hit flag it
returns. -/
structure ProcessResult where
  state : RenderState
  tasks : List PendingTask
  cacheHit : Bool
deriving DecidableEq

/-- The synchronous part of processPage (utils.ts lines 388-520).  Skips
pages outside [cacheStart, cacheEnd]; otherwise always adds the page
number to the render lock set first, then consults the raster cache: on a
hit it draws the visible section (if visible) and — the asyncTasks array
being empty — releases the lock synchronously; on a miss it invokes
renderCanvas (queuing its awaited effects as a pending task) and leaves
the lock held for the task's finally clause.  The text-layer block is
commented out in the source and therefore absent here. -/
def processPageSync (pd : PageData) (index : ℕ) (visibleStart visibleEnd : ℚ)
    (cacheStart cacheEnd : ℤ) (st : RenderState) : ProcessResult :=
  if (index : ℤ) < cacheStart ∨ (index : ℤ) > cacheEnd then ⟨st, [], false⟩
  else
    let pageNumber := index + 1
    let pageBottom := pd.yOffset + pd.viewport.height
    let isPageVisible : Bool :=
      decide (visibleStart ≤ pageBottom) && decide (pd.yOffset ≤ visibleEnd)
    let st1 : RenderState := { st with lock := insert pageNumber st.lock }
    match mapGet st1.cache pageNumber with
    | some _cachedCanvas =>
        let st2 :=
          if isPageVisible
          then { st1 with draws := st1.draws ++ [pageNumber] } else st1
        ⟨{ st2 with lock := st2.lock.erase pageNumber }, [], true⟩
    | none =>
        ⟨{ st1 with launches := st1.launches ++ [pageNumber] },
          [⟨pageNumber, isPageVisible⟩], false⟩

/-- Settlement of one pending render task: the awaited part of
renderCanvas runs against the cache as it is at settlement time (caching
the canvas on success, leaving the cache untouched on a caught failure),
the .then continuation draws the returned canvas if the page was visible,
and the finally clause of processPage removes the page number from the
render lock set. -/
def settleTask (doc : PdfDoc) (st : RenderState) (t : PendingTask) :
    RenderState :=
  let r := renderCanvas doc t.pageNumber st.cache
  let st1 : RenderState := { st with cache := r.1 }
  let st2 :=
    if t.visible then { st1 with draws := st1.draws ++ [t.pageNumber] } else st1
  { st2 with lock := st2.lock.erase t.pageNumber }

/-- Settle a list of pending tasks in order. -/
def settleAll (doc : PdfDoc) (st : RenderState) (ts : List PendingTask) :
    RenderState :=
  ts.foldl (settleTask doc) st

/-- Modelled from the spec: the recency bookkeeping of the Cache Manager
(spec section 4.4).  The code that maintains RecencyWindow is not among
the repository's surviving files — only its caller, which passes
maxPagesKept: 5 into useContinuousPdfRenderer, remains — so this follows
the spec's words: on a freshly-launched render append the page number to
the recency window and truncate to the most recent maxPagesKept entries;
entries stay distinct (the data model calls the window the last
maxPagesKept distinct page numbers), so an existing occurrence of the
page is removed before appending. -/
def recordFreshRender (recency : List ℕ) (p : ℕ) (maxPagesKept : ℕ) :
    List ℕ :=
  let appended := recency.filter (fun q => q ≠ p) ++ [p]
  if maxPagesKept < appended.length
  then appended.drop (appended.length - maxPagesKept) else appended

/-- Modelled from the spec: the eviction step of the Cache Manager (spec
section 4.4), over the raster cache and the text-overlay cache (the
latter has the same association-list shape): drop every key that is
neither in the recency window nor currently in the render lock set. -/
def evictCaches (raster : CacheMap) (textCache : CacheMap)
    (recency : List ℕ) (lock : Finset ℕ) : CacheMap × CacheMap :=
  (raster.filter (fun e => decide (e.1 ∈ recency) || decide (e.1 ∈ lock)),
   textCache.filter (fun e => decide (e.1 ∈ recency) || decide (e.1 ∈ lock)))

/-- The loop body of schedulePreRendering (useContinuousPdfRenderer.ts
lines 630-659), recursing over the remaining page count (the loop visits
pageNumber, pageNumber + 1, ... and stops past numPages, so
numPages + 1 - pageNumber strictly decreases; the fuel argument carries
exactly that quantity so the recursion is structural).  At each step: exit
if the run was cancelled or the page number exceeds the page count;
otherwise, if the page is uncached, invoke renderCanvas (whose success
path writes the cache) and only then — in the finally clause — wait for
idle time and recurse on the next page; if cached, skip straight to the
idle wait and recurse.  The rendered log records the pages for which a
render was issued. -/
def schedulePreRenderingGo (doc : PdfDoc) (isCancelled : Bool) :
    ℕ → CacheMap → List ℕ → ℕ → CacheMap × List ℕ
  | 0, cache, rendered, _ => (cache, rendered)
  | fuel + 1, cache, rendered, pageNumber =>
      if isCancelled ∨ pageNumber > doc.numPages then (cache, rendered)
      else if (mapGet cache pageNumber).isNone then
        let r := renderCanvas doc pageNumber cache
        schedulePreRenderingGo doc isCancelled fuel r.1
          (rendered ++ [pageNumber]) (pageNumber + 1)
      else
        schedulePreRenderingGo doc isCancelled fuel cache rendered
          (pageNumber + 1)

/-- schedulePreRendering(pageNumber) with the cancellation flag as it
reads at loop time. -/
def schedulePreRendering (doc : PdfDoc) (isCancelled : Bool)
    (cache : CacheMap) (pageNumber : ℕ) : CacheMap × List ℕ :=
  schedulePreRenderingGo doc isCancelled (doc.numPages + 1 - pageNumber)
    cache [] pageNumber

/-- Test fixture: a 1-page renderable document. -/
def doc1 : PdfDoc := ⟨[⟨600, 800, true⟩]⟩

/-- Test fixture: the layout entry of doc1's only page at scale 1. -/
def pd1fix : PageData := ⟨⟨600, 800⟩, 0⟩

/-- Test fixture for Scenario D: a 3-page document whose page 3 fails in
the Geometry Provider (getPage rejects). -/
def docFail : PdfDoc := ⟨[⟨600, 800, true⟩, ⟨600, 800, true⟩, ⟨600, 800, false⟩]⟩

/-- Test fixture: the layout entry of docFail's page 3 (index 2). -/
def pdFail : PageData := ⟨⟨300, 400⟩, 800⟩

/-- The layout effect of useContinuousPdfRenderer.ts (lines 625-683) as it
actually executes: the effect body declares isCancelled = false and calls
the async computeLayout(), which suspends at its first await; the very
next statement of the effect body — line 682, not a cleanup closure — sets
isCancelled = true; only afterwards does computeLayout resume and call
schedulePreRendering(1), which therefore reads isCancelled = true. -/
def layoutEffectPrefetch (doc : PdfDoc) (cache : CacheMap) :
    CacheMap × List ℕ :=
  schedulePreRendering doc true cache 1

/-- Test fixture for Scenario C and the layout claims: three renderable
pages with intrinsic widths 600, 800, 500 and heights 800, 600, 400. -/
def docC : PdfDoc := ⟨[⟨600, 800, true⟩, ⟨800, 600, true⟩, ⟨500, 400, true⟩]⟩

/-- The layout of docC at scale 1/2. -/
def pdCHalf : List PageData :=
  [⟨⟨300, 400⟩, 0⟩, ⟨⟨400, 300⟩, 400⟩, ⟨⟨250, 200⟩, 700⟩]

/-- Test fixture: a state whose raster cache already holds page 1. -/
def stCached : RenderState := ⟨[(1, renderedCanvas 1)], ∅, [], []⟩

/-- Test fixture: a 2-page renderable document for the prefetcher. -/
def docNine : PdfDoc := ⟨[⟨100, 200, true⟩, ⟨100, 200, true⟩]⟩

theorem heightSum_cons (pd : PageData) (rest : List PageData) :
    heightSum (pd :: rest) = pd.viewport.height + heightSum rest := by
  simp [heightSum]

theorem findFirstIdx_eq_none_iff {α : Type} (p : α → Bool) (l : List α) :
    findFirstIdx p l = none ↔ ∀ a ∈ l, p a = false := by
  induction l with
  | nil => simp [findFirstIdx]
  | cons a l ih =>
    by_cases h : p a <;> simp [findFirstIdx, h, ih]

theorem findFirstIdx_isSome_of_mem {α : Type} {p : α → Bool} {l : List α}
    {a : α} (ha : a ∈ l) (hp : p a = true) :
    ∃ i, findFirstIdx p l = some i := by
  rcases h : findFirstIdx p l with _ | i
  · exact absurd hp (by simp [(findFirstIdx_eq_none_iff p l).mp h a ha])
  · exact ⟨i, rfl⟩

theorem findFirstIdx_getElem {α : Type} {p : α → Bool} {l : List α} {i : ℕ}
    (h : findFirstIdx p l = some i) :
    i < l.length ∧ ∃ a, l[i]? = some a ∧ p a = true := by
  induction l generalizing i with
  | nil => simp [findFirstIdx] at h
  | cons a l ih =>
    by_cases hp : p a
    · simp [findFirstIdx, hp] at h
      subst h
      exact ⟨by simp, a, by simp, hp⟩
    · simp [findFirstIdx, hp] at h
      obtain ⟨k, hk, rfl⟩ := h
      obtain ⟨hlt, b, hb, hpb⟩ := ih hk
      exact ⟨by simpa using hlt, b, by simpa using hb, hpb⟩

theorem findFirstIdx_min {α : Type} {p : α → Bool} {l : List α} {i : ℕ}
    (h : findFirstIdx p l = some i) :
    ∀ k a, l[k]? = some a → p a = true → i ≤ k := by
  induction l generalizing i with
  | nil => simp [findFirstIdx] at h
  | cons x l ih =>
    by_cases hp : p x
    · simp [findFirstIdx, hp] at h
      intro k a _ _
      omega
    · simp [findFirstIdx, hp] at h
      obtain ⟨k0, hk0, rfl⟩ := h
      intro k a hk hpa
      cases k with
      | zero => simp at hk; subst hk; exact absurd hpa (by simp [hp])
      | succ k => exact Nat.succ_le_succ (ih hk0 k a (by simpa using hk) hpa)

theorem findLastIdx_spec {α : Type} {p : α → Bool} {l : List α} {j : ℕ}
    (h : findLastIdx p l = some j) :
    j < l.length ∧ ∃ a, l[j]? = some a ∧ p a = true := by
  simp only [findLastIdx, Option.map_eq_some'] at h
  obtain ⟨k, hk, rfl⟩ := h
  obtain ⟨hk_lt, a, ha, hpa⟩ := findFirstIdx_getElem hk
  have hk_lt' : k < l.length := by simpa using hk_lt
  refine ⟨by omega, a, ?_, hpa⟩
  rw [List.getElem?_reverse hk_lt'] at ha
  simpa using ha

theorem findLastIdx_isSome_of_mem {α : Type} {p : α → Bool} {l : List α}
    {a : α} (ha : a ∈ l) (hp : p a = true) :
    ∃ j, findLastIdx p l = some j := by
  obtain ⟨i, hi⟩ := findFirstIdx_isSome_of_mem (by simpa using ha : a ∈ l.reverse) hp
  exact ⟨l.length - 1 - i, by simp [findLastIdx, hi]⟩

theorem findLastIdx_ge {α : Type} {p : α → Bool} {l : List α} {j k : ℕ} {a : α}
    (h : findLastIdx p l = some j) (hk : l[k]? = some a) (hpa : p a = true) :
    k ≤ j := by
  simp only [findLastIdx, Option.map_eq_some'] at h
  obtain ⟨k0, hk0, rfl⟩ := h
  have hk_lt : k < l.length := by
    rcases List.getElem?_eq_some_iff.mp hk with ⟨hlt, _⟩
    exact hlt
  have hrev : l.reverse[l.length - 1 - k]? = some a := by
    rw [List.getElem?_reverse (by omega)]
    have : l.length - 1 - (l.length - 1 - k) = k := by omega
    rw [this]; exact hk
  have := findFirstIdx_min hk0 (l.length - 1 - k) a hrev hpa
  have hk0_lt : k0 < l.length := by
    have := (findFirstIdx_getElem hk0).1
    simpa using this
  omega

/-- Inside a contiguous tiling that spans [y, y + heightSum x], any scroll
position dh with y ≤ dh ≤ y + heightSum x lies on some page, and that page
passes the visibility test of calculateStartEnd for any window height
H ≥ 0. -/
theorem exists_visible_page (dh H : ℚ) (hH : 0 ≤ H) :
    ∀ (x : List PageData) (y : ℚ), tilesFromB y x = true → x ≠ [] →
      y ≤ dh → dh ≤ y + heightSum x →
      ∃ pd ∈ x, visiblePred dh (dh + H) pd = true := by
  intro x
  induction x with
  | nil => intro y _ hne _ _; exact absurd rfl hne
  | cons pd rest ih =>
    intro y ht _ hy hdh
    simp only [tilesFromB, Bool.and_eq_true, decide_eq_true_eq] at ht
    obtain ⟨⟨hoff, hpos⟩, ht'⟩ := ht
    by_cases hcase : dh ≤ y + pd.viewport.height
    · refine ⟨pd, by simp, ?_⟩
      simp only [visiblePred, Bool.and_eq_true, decide_eq_true_eq]
      constructor
      · rw [hoff]; linarith
      · rw [hoff]; linarith
    · push_neg at hcase
      have hrest : rest ≠ [] := by
        rintro rfl
        rw [heightSum_cons, heightSum] at hdh
        simp at hdh
        linarith
      obtain ⟨a, ha, hpa⟩ :=
        ih (y + pd.viewport.height) ht' hrest (le_of_lt hcase)
          (by rw [heightSum_cons] at hdh; linarith)
      exact ⟨a, by simp [ha], hpa⟩

/-- C1: for every contiguously tiled layout with at least one page, every
scroll offset in [0, totalHeight - visibleHeight] with visibleHeight ≥ 0,
and every margin Q ≥ 0, calculateStartEnd finds first and last visible
indices i ≤ j and returns 0 ≤ cacheStart ≤ i ≤ j ≤ cacheEnd ≤
pageCount - 1. -/
theorem calculateStartEnd_window_ordered
    (x : List PageData) (dh H : ℚ) (Q : ℤ)
    (hx : x ≠ []) (ht : tilesFromB 0 x = true)
    (hH : 0 ≤ H) (hdh0 : 0 ≤ dh) (hdh1 : dh ≤ heightSum x - H) (hQ : 0 ≤ Q) :
    ∃ i j : ℕ,
      findFirstIdx (visiblePred dh (dh + H)) x = some i ∧
      findLastIdx (visiblePred dh (dh + H)) x = some j ∧
      0 ≤ (calculateStartEnd x x.length dh H Q).cacheStart ∧
      (calculateStartEnd x x.length dh H Q).cacheStart ≤ (i : ℤ) ∧
      (i : ℤ) ≤ (j : ℤ) ∧
      (j : ℤ) ≤ (calculateStartEnd x x.length dh H Q).cacheEnd ∧
      (calculateStartEnd x x.length dh H Q).cacheEnd ≤ (x.length : ℤ) - 1 := by
  obtain ⟨pd, hmem, hpd⟩ :=
    exists_visible_page dh H hH x 0 ht hx hdh0 (by linarith)
  obtain ⟨i, hfv⟩ := findFirstIdx_isSome_of_mem hmem hpd
  obtain ⟨j, hlv⟩ := findLastIdx_isSome_of_mem hmem hpd
  obtain ⟨hi_lt, a, ha, hpa⟩ := findFirstIdx_getElem hfv
  have hij : i ≤ j := findLastIdx_ge hlv ha hpa
  obtain ⟨hj_lt, -⟩ := findLastIdx_spec hlv
  refine ⟨i, j, hfv, hlv, ?_, ?_, by exact_mod_cast hij, ?_, ?_⟩ <;>
    simp only [calculateStartEnd, hfv, hlv] <;> omega

/-- C1 witness: the theorem applied to the concrete 2-page layout with
scrollOffset 5, visibleHeight 8 and margin 1. -/
theorem calculateStartEnd_window_ordered_witness :
    ∃ i j : ℕ,
      findFirstIdx (visiblePred 5 (5 + 8)) twoPages = some i ∧
      findLastIdx (visiblePred 5 (5 + 8)) twoPages = some j ∧
      0 ≤ (calculateStartEnd twoPages twoPages.length 5 8 1).cacheStart ∧
      (calculateStartEnd twoPages twoPages.length 5 8 1).cacheStart ≤ (i : ℤ) ∧
      (i : ℤ) ≤ (j : ℤ) ∧
      (j : ℤ) ≤ (calculateStartEnd twoPages twoPages.length 5 8 1).cacheEnd ∧
      (calculateStartEnd twoPages twoPages.length 5 8 1).cacheEnd ≤
        (twoPages.length : ℤ) - 1 :=
  calculateStartEnd_window_ordered twoPages 5 8 1
    (by simp [twoPages]) (by norm_num [tilesFromB, twoPages]) (by norm_num)
    (by norm_num) (by norm_num [heightSum, twoPages]) (by norm_num)

/-- C8 counterexample: in Scenario B (10 pages of height 800, visibleHeight
1000, scrollOffset 4000, Q = 2) the code returns cacheStart = 2 and
cacheEnd = 8, not the claimed 3 and 7: page index 4 also passes the test,
because its bottom edge 4000 satisfies pageBottom >= visibleStart, and page
index 6 starts at 4800 <= visibleEnd = 5000. -/
theorem scenarioB_window_is_2_8 :
    (calculateStartEnd ten800 10 4000 1000 2).cacheStart = 2 ∧
    (calculateStartEnd ten800 10 4000 1000 2).cacheEnd = 8 ∧
    ((calculateStartEnd ten800 10 4000 1000 2).cacheStart = 3 ∧
      (calculateStartEnd ten800 10 4000 1000 2).cacheEnd = 7 → False) := by
  norm_num [calculateStartEnd, findFirstIdx, findLastIdx, visiblePred, ten800]

/-- C8 amended: in Scenario B the visible index range computed by
calculateStartEnd is [4, 6], which includes page index 5, and the cache
window is cacheStart = 2, cacheEnd = 8. -/
theorem scenarioB_amended :
    findFirstIdx (visiblePred 4000 (4000 + 1000)) ten800 = some 4 ∧
    findLastIdx (visiblePred 4000 (4000 + 1000)) ten800 = some 6 ∧
    (4 : ℕ) ≤ 5 ∧ (5 : ℕ) ≤ 6 ∧
    calculateStartEnd ten800 10 4000 1000 2 = ⟨4000, 5000, 2, 8⟩ := by
  norm_num [calculateStartEnd, findFirstIdx, findLastIdx, visiblePred, ten800]

/-- C10: when no page passes the visibility test (in particular when the
layout array is empty), both visible indices default to 0, so
calculateStartEnd returns cacheStart = 0 and cacheEnd = min (N - 1) Q; for
N = 0 this yields cacheEnd = -1 < cacheStart, an empty window whose end
lies outside [0, pageCount - 1]. -/
theorem calculateStartEnd_default_window
    (x : List PageData) (N : ℤ) (dh H : ℚ) (Q : ℤ)
    (hnone : ∀ pd ∈ x, visiblePred dh (dh + H) pd = false) (hQ : 0 ≤ Q) :
    (calculateStartEnd x N dh H Q).cacheStart = 0 ∧
    (calculateStartEnd x N dh H Q).cacheEnd = min (N - 1) Q ∧
    (N = 0 →
      (calculateStartEnd x N dh H Q).cacheEnd = -1 ∧
      (calculateStartEnd x N dh H Q).cacheEnd <
        (calculateStartEnd x N dh H Q).cacheStart) := by
  have hfv : findFirstIdx (visiblePred dh (dh + H)) x = none :=
    (findFirstIdx_eq_none_iff _ _).mpr hnone
  have hlv : findLastIdx (visiblePred dh (dh + H)) x = none := by
    have : findFirstIdx (visiblePred dh (dh + H)) x.reverse = none :=
      (findFirstIdx_eq_none_iff _ _).mpr (by
        intro a ha
        exact hnone a (by simpa using ha))
    simp [findLastIdx, this]
  have hr : calculateStartEnd x N dh H Q =
      ⟨dh, dh + H, max 0 (0 - Q), min (N - 1) (0 + Q)⟩ := by
    simp only [calculateStartEnd, hfv, hlv]
  refine ⟨?_, ?_, fun hN => ⟨?_, ?_⟩⟩ <;> rw [hr] <;> dsimp only <;> omega

/-- C10 witness: the empty layout with N = 0 and Q = 3. -/
theorem calculateStartEnd_default_window_witness :
    (calculateStartEnd [] 0 0 0 3).cacheStart = 0 ∧
    (calculateStartEnd [] 0 0 0 3).cacheEnd = min (0 - 1) 3 ∧
    ((0 : ℤ) = 0 →
      (calculateStartEnd [] 0 0 0 3).cacheEnd = -1 ∧
      (calculateStartEnd [] 0 0 0 3).cacheEnd <
        (calculateStartEnd [] 0 0 0 3).cacheStart) :=
  calculateStartEnd_default_window [] 0 0 0 3 (by simp) (by norm_num)

theorem specHeightSum_cons (scale : ℚ) (p : PageSpec) (rest : List PageSpec) :
    specHeightSum scale (p :: rest) =
      (p.getViewport scale).height + specHeightSum scale rest := by
  simp [specHeightSum]

theorem heightSum_append (x y : List PageData) :
    heightSum (x ++ y) = heightSum x + heightSum y := by
  simp [heightSum]

theorem foldl_pagesReduce (scale : ℚ) :
    ∀ (ps : List PageSpec) (acc : List PageData) (y : ℚ),
      ps.foldl (pagesReduceStep scale) (acc, y) =
        (acc ++ layoutFrom scale y ps, y + specHeightSum scale ps) := by
  intro ps
  induction ps with
  | nil => intro acc y; simp [layoutFrom, specHeightSum]
  | cons p rest ih =>
    intro acc y
    simp only [List.foldl_cons, pagesReduceStep]
    rw [ih]
    simp [layoutFrom, specHeightSum_cons, add_assoc]

theorem getPage_succ_eq_some {doc : PdfDoc} {n : ℕ} {p : PageSpec}
    (h : getPage doc (n + 1) = some p) :
    doc.pages[n]? = some p ∧ p.getPageOk = true := by
  simp only [getPage, Nat.add_sub_cancel] at h
  rcases hg : doc.pages[n]? with _ | q <;> rw [hg] at h
  · simp at h
  · simp only [] at h
    by_cases hok : q.getPageOk = true
    · simp [hok] at h
      exact ⟨by rw [h], by rw [← h]; exact hok⟩
    · simp [hok] at h

theorem fetchPages_eq_take (doc : PdfDoc) :
    ∀ n l, fetchPages doc n = some l → l = doc.pages.take n := by
  intro n
  induction n with
  | zero =>
    intro l h
    simp only [fetchPages, Option.some.injEq] at h
    rw [← h]
    rfl
  | succ n ih =>
    intro l h
    simp only [fetchPages] at h
    rcases hf : fetchPages doc n with _ | l0 <;> rw [hf] at h
    · simp at h
    rcases hg : getPage doc (n + 1) with _ | p <;> rw [hg] at h
    · simp at h
    · simp at h
      obtain ⟨hidx, -⟩ := getPage_succ_eq_some hg
      rw [← h, ih l0 hf, List.take_succ, hidx]
      simp

theorem fetchPages_all_ok (doc : PdfDoc)
    (hok : ∀ p ∈ doc.pages, p.getPageOk = true) :
    ∀ n, n ≤ doc.pages.length → fetchPages doc n = some (doc.pages.take n) := by
  intro n
  induction n with
  | zero => intro _; simp [fetchPages]
  | succ n ih =>
    intro hn
    have hlt : n < doc.pages.length := by omega
    have hq : doc.pages[n]? = some doc.pages[n] := List.getElem?_eq_getElem hlt
    have hqmem : doc.pages[n] ∈ doc.pages := List.getElem_mem hlt
    have hgp : getPage doc (n + 1) = some doc.pages[n] := by
      simp only [getPage, Nat.add_sub_cancel, hq]
      simp [hok _ hqmem]
    simp only [fetchPages, ih (by omega), hgp, List.take_succ, hq]
    simp

theorem allPages_eq_some {doc : PdfDoc} {l : List PageSpec}
    (h : allPages doc = some l) : l = doc.pages := by
  have := fetchPages_eq_take doc doc.numPages l h
  simpa [PdfDoc.numPages] using this

theorem allPages_of_ok (doc : PdfDoc)
    (hok : ∀ p ∈ doc.pages, p.getPageOk = true) :
    allPages doc = some doc.pages := by
  have := fetchPages_all_ok doc hok doc.pages.length le_rfl
  simpa [allPages, PdfDoc.numPages] using this

theorem getPagesDataArray_some {doc : PdfDoc} {scale : ℚ}
    {pd : List PageData} {th : ℚ}
    (h : getPagesDataArray doc scale = some (pd, th)) :
    pd = layoutFrom scale 0 doc.pages ∧ th = specHeightSum scale doc.pages := by
  simp only [getPagesDataArray, Option.map_eq_some'] at h
  obtain ⟨pages0, hall, hfold⟩ := h
  have := allPages_eq_some hall
  subst this
  rw [foldl_pagesReduce] at hfold
  have h1 := congrArg Prod.fst hfold
  have h2 := congrArg Prod.snd hfold
  simp at h1 h2
  exact ⟨h1.symm, by rw [← h2]⟩

theorem layoutFrom_length (scale : ℚ) :
    ∀ (ps : List PageSpec) (y : ℚ), (layoutFrom scale y ps).length = ps.length := by
  intro ps
  induction ps with
  | nil => intro y; simp [layoutFrom]
  | cons p rest ih => intro y; simp [layoutFrom, ih]

theorem heightSum_layoutFrom (scale : ℚ) :
    ∀ (ps : List PageSpec) (y : ℚ),
      heightSum (layoutFrom scale y ps) = specHeightSum scale ps := by
  intro ps
  induction ps with
  | nil => intro y; simp [layoutFrom, heightSum, specHeightSum]
  | cons p rest ih =>
    intro y
    simp [layoutFrom, heightSum_cons, specHeightSum_cons, ih]

theorem layoutFrom_yOffset (scale : ℚ) :
    ∀ (ps : List PageSpec) (y : ℚ) (i : ℕ) (e : PageData),
      (layoutFrom scale y ps)[i]? = some e →
      e.yOffset = y + heightSum ((layoutFrom scale y ps).take i) := by
  intro ps
  induction ps with
  | nil => intro y i e h; simp [layoutFrom] at h
  | cons p rest ih =>
    intro y i e h
    cases i with
    | zero =>
      simp [layoutFrom] at h
      simp [← h, heightSum]
    | succ i =>
      simp only [layoutFrom, List.getElem?_cons_succ] at h
      have := ih (y + (p.getViewport scale).height) i e h
      rw [this]
      simp [layoutFrom, List.take_succ_cons, heightSum_cons]
      ring

theorem layoutFrom_viewport (scale : ℚ) :
    ∀ (ps : List PageSpec) (y : ℚ) (i : ℕ) (p : PageSpec) (e : PageData),
      ps[i]? = some p → (layoutFrom scale y ps)[i]? = some e →
      e.viewport = p.getViewport scale := by
  intro ps
  induction ps with
  | nil => intro y i p e h _; simp at h
  | cons q rest ih =>
    intro y i p e hp he
    cases i with
    | zero =>
      simp at hp
      simp [layoutFrom] at he
      rw [← he, hp]
    | succ i =>
      simp only [List.getElem?_cons_succ] at hp
      simp only [layoutFrom, List.getElem?_cons_succ] at he
      exact ih _ i p e hp he

/-- C7: the layout getPagesDataArray computes assigns page i the running
sum of the heights of pages 0..i-1 as yOffset (so page 0 gets 0 and
yOffset(i+1) = yOffset(i) + height(i)), with no inter-page gap, and the
reported totalHeight equals the sum of all page heights. -/
theorem getPagesDataArray_cumulative (doc : PdfDoc) (scale : ℚ)
    (pd : List PageData) (th : ℚ)
    (h : getPagesDataArray doc scale = some (pd, th)) :
    pd.length = doc.numPages ∧
    (∀ i e, pd[i]? = some e → e.yOffset = heightSum (pd.take i)) ∧
    (∀ i e e', pd[i]? = some e → pd[i + 1]? = some e' →
      e'.yOffset = e.yOffset + e.viewport.height) ∧
    th = heightSum pd := by
  obtain ⟨hpd, hth⟩ := getPagesDataArray_some h
  subst hpd
  refine ⟨?_, ?_, ?_, ?_⟩
  · rw [layoutFrom_length, PdfDoc.numPages]
  · intro i e he
    have := layoutFrom_yOffset scale doc.pages 0 i e he
    simpa using this
  · intro i e e' he he'
    have h1 := layoutFrom_yOffset scale doc.pages 0 i e he
    have h2 := layoutFrom_yOffset scale doc.pages 0 (i + 1) e' he'
    rw [List.take_succ, he, heightSum_append] at h2
    rw [h2, h1]
    simp [heightSum]
  · rw [hth, heightSum_layoutFrom]

/-- C7 witness: the cumulative-offset theorem applied to the concrete
3-page document at scale 1/2. -/
theorem getPagesDataArray_cumulative_witness :
    pdCHalf.length = docC.numPages ∧
    (∀ i e, pdCHalf[i]? = some e → e.yOffset = heightSum (pdCHalf.take i)) ∧
    (∀ i e e', pdCHalf[i]? = some e → pdCHalf[i + 1]? = some e' →
      e'.yOffset = e.yOffset + e.viewport.height) ∧
    (900 : ℚ) = heightSum pdCHalf :=
  getPagesDataArray_cumulative docC (1 / 2) pdCHalf 900
    (by norm_num [getPagesDataArray, allPages, fetchPages, getPage,
      PdfDoc.numPages, docC, pagesReduceStep, PageSpec.getViewport, pdCHalf])

theorem widest_fold_aux (pd : List PageData) :
    ∀ (l : List (ℕ × PageData)) (acc : ℕ),
      (∀ q ∈ l, pd[q.1]? = some q.2) → acc < pd.length →
      l.foldl (widestStep pd) acc < pd.length ∧
      (pd.getD acc defaultPageData).viewport.width ≤
        (pd.getD (l.foldl (widestStep pd) acc) defaultPageData).viewport.width ∧
      ∀ q ∈ l, q.2.viewport.width ≤
        (pd.getD (l.foldl (widestStep pd) acc) defaultPageData).viewport.width := by
  intro l
  induction l with
  | nil =>
    intro acc _ hacc
    exact ⟨hacc, le_refl _, by simp⟩
  | cons ip rest ih =>
    intro acc hcons hacc
    have hip : pd[ip.1]? = some ip.2 := hcons ip (by simp)
    have hrest : ∀ q ∈ rest, pd[q.1]? = some q.2 :=
      fun q hq => hcons q (by simp [hq])
    have hgetD : pd.getD ip.1 defaultPageData = ip.2 := by
      simp [List.getD_eq_getElem?_getD, hip]
    obtain ⟨hip_lt, -⟩ := List.getElem?_eq_some_iff.mp hip
    by_cases hw :
        (pd.getD acc defaultPageData).viewport.width < ip.2.viewport.width
    · have hstep : widestStep pd acc ip = ip.1 := by
        unfold widestStep
        rw [if_pos hw]
      obtain ⟨h1, h2, h3⟩ := ih ip.1 hrest hip_lt
      rw [List.foldl_cons, hstep]
      refine ⟨h1, le_trans (le_of_lt hw) (by rw [← hgetD]; exact h2), ?_⟩
      intro q hq
      rcases List.mem_cons.mp hq with heq | hmem
      · subst heq
        rw [← hgetD]
        exact h2
      · exact h3 q hmem
    · have hstep : widestStep pd acc ip = acc := by
        unfold widestStep
        rw [if_neg hw]
      obtain ⟨h1, h2, h3⟩ := ih acc hrest hacc
      rw [List.foldl_cons, hstep]
      refine ⟨h1, h2, ?_⟩
      intro q hq
      rcases List.mem_cons.mp hq with heq | hmem
      · subst heq
        exact le_trans (not_lt.mp hw) h2
      · exact h3 q hmem

/-- The reduce of getWidestPage returns an in-range index whose viewport
width is maximal over the whole layout array. -/
theorem widestPageIndex_spec (pd : List PageData) (h : pd ≠ []) :
    widestPageIndex pd < pd.length ∧
    ∀ (k : ℕ) (e : PageData), pd[k]? = some e →
      e.viewport.width ≤
        (pd.getD (widestPageIndex pd) defaultPageData).viewport.width := by
  have hlen : 0 < pd.length := List.length_pos.mpr h
  have henum : ∀ q ∈ pd.enum, pd[q.1]? = some q.2 := by
    intro q hq
    exact List.mem_enum_iff_getElem?.mp hq
  obtain ⟨h1, -, h3⟩ := widest_fold_aux pd pd.enum 0 henum hlen
  refine ⟨h1, ?_⟩
  intro k e hk
  refine h3 (k, e) ?_
  rw [List.mem_enum_iff_getElem?]
  exact hk

/-- C6: computeLayout (usePdfLayout.ts) queries every page's intrinsic
size at scale 1, takes the widest page as the reference, sets
scale = containerWidth / widestPageWidth, and computes every page's
viewport at that scale; in particular for intrinsic widths [600, 800, 500]
and container width 400 the chosen scale is 400/800 = 1/2 and every
viewport is the intrinsic size halved. -/
theorem computeLayout_widest_scale :
    (∀ (doc : PdfDoc) (cw : ℚ), doc.pages ≠ [] →
      (∀ p ∈ doc.pages, p.getPageOk = true) →
      ∃ w pd th,
        computeLayout doc cw = some (cw / w, pd, th) ∧
        (∃ p ∈ doc.pages, p.width = w) ∧
        (∀ p ∈ doc.pages, p.width ≤ w) ∧
        pd.length = doc.numPages ∧
        (∀ (i : ℕ) (p : PageSpec) (e : PageData),
          doc.pages[i]? = some p → pd[i]? = some e →
          e.viewport = p.getViewport (cw / w))) ∧
    computeLayout docC 400 = some (1 / 2, pdCHalf, 900) := by
  constructor
  · intro doc cw hne hok
    have hall : allPages doc = some doc.pages := allPages_of_ok doc hok
    have hgpda1 : getPagesDataArray doc 1 =
        some (layoutFrom 1 0 doc.pages, specHeightSum 1 doc.pages) := by
      simp [getPagesDataArray, hall, foldl_pagesReduce]
    have hne1 : layoutFrom 1 0 doc.pages ≠ [] := by
      intro hcon
      have := layoutFrom_length 1 doc.pages 0
      rw [hcon] at this
      exact hne (List.length_eq_zero.mp this.symm)
    obtain ⟨hidx_lt, hmax⟩ := widestPageIndex_spec (layoutFrom 1 0 doc.pages) hne1
    rw [layoutFrom_length] at hidx_lt
    have hpg_idx : doc.pages[widestPageIndex (layoutFrom 1 0 doc.pages)]? =
        some doc.pages[widestPageIndex (layoutFrom 1 0 doc.pages)] :=
      List.getElem?_eq_getElem hidx_lt
    set idx := widestPageIndex (layoutFrom 1 0 doc.pages) with hidxdef
    set pg := doc.pages[idx] with hpgdef
    have hpgmem : pg ∈ doc.pages := List.mem_iff_getElem?.mpr ⟨idx, hpg_idx⟩
    have hpg : getPage doc (idx + 1) = some pg := by
      simp only [getPage, Nat.add_sub_cancel, hpg_idx]
      simp [hok pg hpgmem]
    have hW : getWidestPage doc = some pg := by
      simp only [getWidestPage, hgpda1, hpg]
    have hgetD : (layoutFrom 1 0 doc.pages).getD idx defaultPageData =
        ⟨pg.getViewport 1, ((layoutFrom 1 0 doc.pages).getD idx
          defaultPageData).yOffset⟩ := by
      have hlen1 : idx < (layoutFrom 1 0 doc.pages).length := by
        rw [layoutFrom_length]
        exact hidx_lt
      have he : (layoutFrom 1 0 doc.pages)[idx]? =
          some ((layoutFrom 1 0 doc.pages)[idx]) := List.getElem?_eq_getElem hlen1
      have hv := layoutFrom_viewport 1 doc.pages 0 idx pg
        ((layoutFrom 1 0 doc.pages)[idx]) hpg_idx he
      rw [List.getD_eq_getElem?_getD, he]
      simp [← hv]
    have hwidth : ((layoutFrom 1 0 doc.pages).getD idx
        defaultPageData).viewport.width = pg.width * 1 := by
      rw [hgetD]
      simp [PageSpec.getViewport]
    have hsc : cw / (pg.getViewport 1).width = cw / pg.width := by
      simp [PageSpec.getViewport]
    have hC : computeLayout doc cw =
        some (cw / pg.width, layoutFrom (cw / pg.width) 0 doc.pages,
          specHeightSum (cw / pg.width) doc.pages) := by
      simp only [computeLayout, hW]
      rw [hsc]
      simp [getPagesDataArray, hall, foldl_pagesReduce]
    refine ⟨pg.width, layoutFrom (cw / pg.width) 0 doc.pages,
      specHeightSum (cw / pg.width) doc.pages, hC, ⟨pg, hpgmem, rfl⟩, ?_, ?_, ?_⟩
    · intro p hp
      obtain ⟨k, hk⟩ := List.mem_iff_getElem?.mp hp
      obtain ⟨hk_lt, -⟩ := List.getElem?_eq_some_iff.mp hk
      have hk_lt1 : k < (layoutFrom 1 0 doc.pages).length := by
        rw [layoutFrom_length]
        exact hk_lt
      have hek : (layoutFrom 1 0 doc.pages)[k]? =
          some ((layoutFrom 1 0 doc.pages)[k]) := List.getElem?_eq_getElem hk_lt1
      have hv := layoutFrom_viewport 1 doc.pages 0 k p
        ((layoutFrom 1 0 doc.pages)[k]) hk hek
      have := hmax k ((layoutFrom 1 0 doc.pages)[k]) hek
      rw [hv, hwidth] at this
      simpa [PageSpec.getViewport] using this
    · rw [layoutFrom_length, PdfDoc.numPages]
    · intro i p e hip hie
      exact layoutFrom_viewport (cw / pg.width) doc.pages 0 i p e hip hie
  · norm_num [computeLayout, getWidestPage, getPagesDataArray, allPages,
      fetchPages, getPage, PdfDoc.numPages, widestPageIndex, widestStep, docC,
      pagesReduceStep, PageSpec.getViewport, defaultPageData, pdCHalf,
      List.enum, List.enumFrom, List.getD_eq_getElem?_getD]

theorem mapGet_cons_pos (e : ℕ × Canvas) (m : CacheMap) (k : ℕ)
    (h : (e.1 == k) = true) : mapGet (e :: m) k = some e.2 := by
  simp only [mapGet, List.find?_cons, h]
  rfl

theorem mapGet_cons_neg (e : ℕ × Canvas) (m : CacheMap) (k : ℕ)
    (h : (e.1 == k) = false) : mapGet (e :: m) k = mapGet m k := by
  simp only [mapGet, List.find?_cons, h]

theorem mapGet_append_self (v : Canvas) :
    ∀ (m : CacheMap) (k : ℕ), m.any (fun e => e.1 == k) = false →
      mapGet (m ++ [(k, v)]) k = some v := by
  intro m
  induction m with
  | nil => intro k _; exact mapGet_cons_pos (k, v) [] k (by simp)
  | cons e m ih =>
    intro k hany
    simp only [List.any_cons, Bool.or_eq_false_iff] at hany
    obtain ⟨he, hm⟩ := hany
    rw [List.cons_append, mapGet_cons_neg e _ k he]
    exact ih k hm

theorem mapGet_mapOverwrite_self (v : Canvas) :
    ∀ (m : CacheMap) (k : ℕ), m.any (fun e => e.1 == k) = true →
      mapGet (m.map (fun e => if e.1 == k then (k, v) else e)) k = some v := by
  intro m
  induction m with
  | nil => intro k h; simp at h
  | cons e m ih =>
    intro k hany
    cases he : (e.1 == k) with
    | true =>
      have hmap : (if (e.1 == k) = true then ((k, v) : ℕ × Canvas) else e)
          = (k, v) := by rw [if_pos he]
      rw [List.map_cons, hmap, mapGet_cons_pos (k, v) _ k (by simp)]
    | false =>
      have hmap : (if (e.1 == k) = true then ((k, v) : ℕ × Canvas) else e)
          = e := by rw [if_neg (by simp [he])]
      simp only [List.any_cons, he, Bool.false_or] at hany
      rw [List.map_cons, hmap, mapGet_cons_neg e _ k he]
      exact ih k hany

/-- Map.set followed by Map.get at the same key yields the stored value. -/
theorem mapGet_mapSet_self (m : CacheMap) (k : ℕ) (v : Canvas) :
    mapGet (mapSet m k v) k = some v := by
  unfold mapSet
  cases h : m.any (fun e => e.1 == k) with
  | true =>
    rw [if_pos rfl]
    exact mapGet_mapOverwrite_self v m k h
  | false =>
    rw [if_neg (by simp)]
    exact mapGet_append_self v m k h

/-- C2 counterexample: two immediate processPage calls for the same
uncached page of a 1-page document launch renderCanvas twice, not once —
the second call runs while the page number is still in the render lock
set, but processPage never consults that set, and the cache is only
written when the in-flight task settles, so the cache check misses
again. -/
theorem processPage_double_launch_cex :
    (processPageSync pd1fix 0 0 10 0 0
      (processPageSync pd1fix 0 0 10 0 0 initialState).state).state.launches =
      [1, 1] ∧
    ((processPageSync pd1fix 0 0 10 0 0
      (processPageSync pd1fix 0 0 10 0 0 initialState).state).state.launches.length
        = 1 → False) ∧
    1 ∈ (processPageSync pd1fix 0 0 10 0 0 initialState).state.lock := by
  norm_num [processPageSync, initialState, pd1fix, mapGet]

/-- C2 amended: calling processPage twice in immediate succession (before
the first render settles) for the same in-window uncached page launches
two underlying render invocations — processPage acquires the lock but
never reads it, so nothing coalesces the duplicate; only once the first
render has settled (writing the raster cache, assuming getPage resolves)
does a further call observe a cache hit and launch nothing. -/
theorem processPage_relaunches_uncached (pd : PageData) (index : ℕ)
    (vs ve : ℚ) (cs ce : ℤ) (st : RenderState)
    (hwin : cs ≤ (index : ℤ) ∧ (index : ℤ) ≤ ce)
    (hmiss : mapGet st.cache (index + 1) = none) :
    (processPageSync pd index vs ve cs ce
        (processPageSync pd index vs ve cs ce st).state).state.launches =
      st.launches ++ [index + 1, index + 1] ∧
    (processPageSync pd index vs ve cs ce st).cacheHit = false ∧
    (processPageSync pd index vs ve cs ce
        (processPageSync pd index vs ve cs ce st).state).cacheHit = false ∧
    ∀ doc : PdfDoc, getPage doc (index + 1) ≠ none →
      (processPageSync pd index vs ve cs ce
        (settleAll doc (processPageSync pd index vs ve cs ce st).state
          (processPageSync pd index vs ve cs ce st).tasks)).cacheHit = true ∧
      (processPageSync pd index vs ve cs ce
        (settleAll doc (processPageSync pd index vs ve cs ce st).state
          (processPageSync pd index vs ve cs ce st).tasks)).state.launches =
        st.launches ++ [index + 1] := by
  have hcond : ¬((index : ℤ) < cs ∨ (index : ℤ) > ce) := by omega
  have h1 : processPageSync pd index vs ve cs ce st =
      ⟨{ st with
          lock := insert (index + 1) st.lock
          launches := st.launches ++ [index + 1] },
        [⟨index + 1, decide (vs ≤ pd.yOffset + pd.viewport.height) &&
          decide (pd.yOffset ≤ ve)⟩], false⟩ := by
    simp only [processPageSync, if_neg hcond, hmiss]
  rw [h1]
  have hmiss2 : mapGet ({ st with
      lock := insert (index + 1) st.lock
      launches := st.launches ++ [index + 1] } : RenderState).cache
      (index + 1) = none := hmiss
  have h2 : processPageSync pd index vs ve cs ce
      ({ st with
        lock := insert (index + 1) st.lock
        launches := st.launches ++ [index + 1] } : RenderState) =
      ⟨{ st with
          lock := insert (index + 1) (insert (index + 1) st.lock)
          launches := (st.launches ++ [index + 1]) ++ [index + 1] },
        [⟨index + 1, decide (vs ≤ pd.yOffset + pd.viewport.height) &&
          decide (pd.yOffset ≤ ve)⟩], false⟩ := by
    simp only [processPageSync, if_neg hcond, hmiss2]
  rw [h2]
  refine ⟨by simp, rfl, rfl, ?_⟩
  intro doc hdoc
  rcases hg : getPage doc (index + 1) with _ | pg
  · exact absurd hg hdoc
  have hrc : renderCanvas doc (index + 1) st.cache =
      (mapSet st.cache (index + 1) (renderedCanvas (index + 1)),
        renderedCanvas (index + 1)) := by
    simp only [renderCanvas, renderCanvasTry, hg]
  have hsettle : ∀ b : Bool,
      mapGet (settleAll doc
        ({ st with
            lock := insert (index + 1) st.lock
            launches := st.launches ++ [index + 1] } : RenderState)
        [⟨index + 1, b⟩]).cache (index + 1) =
      some (renderedCanvas (index + 1)) ∧
      (settleAll doc
        ({ st with
            lock := insert (index + 1) st.lock
            launches := st.launches ++ [index + 1] } : RenderState)
        [⟨index + 1, b⟩]).launches = st.launches ++ [index + 1] := by
    intro b
    cases b <;>
      simp [settleAll, settleTask, hrc, mapGet_mapSet_self]
  obtain ⟨hc, hl⟩ := hsettle (decide (vs ≤ pd.yOffset + pd.viewport.height) &&
    decide (pd.yOffset ≤ ve))
  constructor
  · simp only [processPageSync, if_neg hcond, hc]
  · simp only [processPageSync, if_neg hcond, hc]
    split <;> simp [hl]

/-- C2 witness: the duplicate-launch theorem applied to the 1-page
document's page at index 0 with window [0, 0] and empty initial state. -/
theorem processPage_relaunches_uncached_witness :
    (processPageSync pd1fix 0 0 10 0 0
        (processPageSync pd1fix 0 0 10 0 0 initialState).state).state.launches =
      initialState.launches ++ [0 + 1, 0 + 1] ∧
    (processPageSync pd1fix 0 0 10 0 0 initialState).cacheHit = false ∧
    (processPageSync pd1fix 0 0 10 0 0
        (processPageSync pd1fix 0 0 10 0 0 initialState).state).cacheHit = false ∧
    ∀ doc : PdfDoc, getPage doc (0 + 1) ≠ none →
      (processPageSync pd1fix 0 0 10 0 0
        (settleAll doc (processPageSync pd1fix 0 0 10 0 0 initialState).state
          (processPageSync pd1fix 0 0 10 0 0 initialState).tasks)).cacheHit
        = true ∧
      (processPageSync pd1fix 0 0 10 0 0
        (settleAll doc (processPageSync pd1fix 0 0 10 0 0 initialState).state
          (processPageSync pd1fix 0 0 10 0 0 initialState).tasks)).state.launches
        = initialState.launches ++ [0 + 1] :=
  processPage_relaunches_uncached pd1fix 0 0 10 0 0 initialState
    (by norm_num) (by norm_num [initialState, mapGet])

/-- C4: for any page processed inside the cache window, once all the
asynchronous tasks the call launched have settled, the page number is no
longer in the render lock set; and on the cache-hit path no task is
launched and the lock is already released synchronously when processPage
returns. -/
theorem processPage_lock_released (doc : PdfDoc) (pd : PageData) (index : ℕ)
    (vs ve : ℚ) (cs ce : ℤ) (st : RenderState)
    (hwin : cs ≤ (index : ℤ) ∧ (index : ℤ) ≤ ce) :
    (index + 1) ∉ (settleAll doc (processPageSync pd index vs ve cs ce st).state
      (processPageSync pd index vs ve cs ce st).tasks).lock ∧
    ((mapGet st.cache (index + 1)).isSome →
      (processPageSync pd index vs ve cs ce st).tasks = [] ∧
      (index + 1) ∉ (processPageSync pd index vs ve cs ce st).state.lock) := by
  have hcond : ¬((index : ℤ) < cs ∨ (index : ℤ) > ce) := by omega
  rcases hm : mapGet st.cache (index + 1) with _ | c
  · have h1 : processPageSync pd index vs ve cs ce st =
        ⟨{ st with
            lock := insert (index + 1) st.lock
            launches := st.launches ++ [index + 1] },
          [⟨index + 1, decide (vs ≤ pd.yOffset + pd.viewport.height) &&
            decide (pd.yOffset ≤ ve)⟩], false⟩ := by
      simp only [processPageSync, if_neg hcond, hm]
    rw [h1]
    refine ⟨?_, by simp [hm]⟩
    simp only [settleAll, List.foldl_cons, List.foldl_nil, settleTask]
    split <;> exact Finset.not_mem_erase _ _
  · refine ⟨?_, fun _ => ?_⟩
    · simp only [processPageSync, if_neg hcond, hm]
      simp only [settleAll, List.foldl_nil]
      split <;> exact Finset.not_mem_erase _ _
    · constructor
      · simp only [processPageSync, if_neg hcond, hm]
      · simp only [processPageSync, if_neg hcond, hm]
        split <;> exact Finset.not_mem_erase _ _

/-- C4 witness: the lock-release theorem applied to the 1-page document's
page at index 0, with the page already cached (the synchronous-release
path). -/
theorem processPage_lock_released_witness :
    (0 + 1) ∉ (settleAll doc1 (processPageSync pd1fix 0 0 10 0 0 stCached).state
      (processPageSync pd1fix 0 0 10 0 0 stCached).tasks).lock ∧
    ((mapGet stCached.cache (0 + 1)).isSome →
      (processPageSync pd1fix 0 0 10 0 0 stCached).tasks = [] ∧
      (0 + 1) ∉ (processPageSync pd1fix 0 0 10 0 0 stCached).state.lock) :=
  processPage_lock_released doc1 pd1fix 0 0 10 0 0 stCached (by norm_num)

/-- C5 counterexample: in Scenario D (page 3 of a 3-page document fails in
the Geometry Provider), after processPage's render task settles the raster
cache holds no artifact at all for page 3 — the catch in renderCanvas
returns the blank canvas to the caller but the cache write sits on the
success path only, so the claimed placeholder cache entry does not
exist (the lock is correctly released). -/
theorem renderFailure_cache_empty_cex :
    mapGet (settleAll docFail
      ((processPageSync pdFail 2 0 2000 0 2 initialState).state)
      ((processPageSync pdFail 2 0 2000 0 2 initialState).tasks)).cache 3
      = none ∧
    ((∃ c, mapGet (settleAll docFail
      ((processPageSync pdFail 2 0 2000 0 2 initialState).state)
      ((processPageSync pdFail 2 0 2000 0 2 initialState).tasks)).cache 3
      = some c) → False) ∧
    3 ∉ (settleAll docFail
      ((processPageSync pdFail 2 0 2000 0 2 initialState).state)
      ((processPageSync pdFail 2 0 2000 0 2 initialState).tasks)).lock := by
  norm_num [processPageSync, initialState, pdFail, mapGet, settleAll, settleTask,
    renderCanvas, renderCanvasTry, getPage, docFail, mapSet, blankCanvas,
    renderedCanvas]
  intro x h
  exact Option.noConfusion h

/-- C5 amended: when getPage rejects for an in-window uncached page, the
render pipeline still resolves — renderCanvas catches the failure and
returns the blank placeholder canvas with the cache untouched — no
exception escapes, the page ends up outside the render lock set, but no
artifact (placeholder or otherwise) is written to the raster cache for
that page. -/
theorem renderFailure_resolves_no_cache (doc : PdfDoc) (pd : PageData)
    (index : ℕ) (vs ve : ℚ) (cs ce : ℤ) (st : RenderState)
    (hwin : cs ≤ (index : ℤ) ∧ (index : ℤ) ≤ ce)
    (hmiss : mapGet st.cache (index + 1) = none)
    (hfail : getPage doc (index + 1) = none) :
    (∀ c : CacheMap, renderCanvas doc (index + 1) c =
      (c, blankCanvas (index + 1))) ∧
    (settleAll doc (processPageSync pd index vs ve cs ce st).state
      (processPageSync pd index vs ve cs ce st).tasks).cache = st.cache ∧
    mapGet (settleAll doc (processPageSync pd index vs ve cs ce st).state
      (processPageSync pd index vs ve cs ce st).tasks).cache (index + 1)
      = none ∧
    (index + 1) ∉ (settleAll doc (processPageSync pd index vs ve cs ce st).state
      (processPageSync pd index vs ve cs ce st).tasks).lock := by
  have hcond : ¬((index : ℤ) < cs ∨ (index : ℤ) > ce) := by omega
  have hrc : ∀ c : CacheMap, renderCanvas doc (index + 1) c =
      (c, blankCanvas (index + 1)) := by
    intro c
    simp only [renderCanvas, renderCanvasTry, hfail]
  have h1 : processPageSync pd index vs ve cs ce st =
      ⟨{ st with
          lock := insert (index + 1) st.lock
          launches := st.launches ++ [index + 1] },
        [⟨index + 1, decide (vs ≤ pd.yOffset + pd.viewport.height) &&
          decide (pd.yOffset ≤ ve)⟩], false⟩ := by
    simp only [processPageSync, if_neg hcond, hmiss]
  rw [h1]
  refine ⟨hrc, ?_, ?_, ?_⟩ <;>
    simp only [settleAll, List.foldl_cons, List.foldl_nil, settleTask, hrc]
  · split <;> rfl
  · split <;> simpa using hmiss
  · split <;> exact Finset.not_mem_erase _ _

theorem mem_drop_append_last (a : ℕ) :
    ∀ (l : List ℕ) (k : ℕ), k ≤ l.length → a ∈ (l ++ [a]).drop k := by
  intro l
  induction l with
  | nil =>
    intro k hk
    have hk0 : k = 0 := by simpa using hk
    subst hk0
    simp
  | cons x l ih =>
    intro k hk
    cases k with
    | zero => simp
    | succ k =>
      rw [List.cons_append, List.drop_succ_cons]
      exact ih k (by simpa using hk)

/-- C3 counterexample: with the active cache window being {0..3} (Scenario
A's window, so page number 1 = index 0 is inside it) and page 1 cached,
one fresh render of page 7 pushes the recency window to [3, 4, 5, 6, 7]
(maxPagesKept = 5) and the subsequent eviction removes page 1's cached
artifact even though its index lies inside the active window — the
recency-bounded policy ignores the window entirely. -/
theorem recency_eviction_window_cex :
    (calculateStartEnd ten800 10 0 1000 2).cacheStart = 0 ∧
    (calculateStartEnd ten800 10 0 1000 2).cacheEnd = 3 ∧
    recordFreshRender [3, 4, 5, 6] 7 5 = [3, 4, 5, 6, 7] ∧
    mapGet [(1, renderedCanvas 1), (5, renderedCanvas 5)] 1 =
      some (renderedCanvas 1) ∧
    mapGet (evictCaches [(1, renderedCanvas 1), (5, renderedCanvas 5)] []
      (recordFreshRender [3, 4, 5, 6] 7 5) {7}).1 1 = none := by
  norm_num [calculateStartEnd, findFirstIdx, findLastIdx, visiblePred, ten800,
    recordFreshRender, evictCaches, mapGet, renderedCanvas]

/-- C3 amended (spec-modelled): on a fresh render the page number joins the
recency window, which keeps at most maxPagesKept distinct entries (the
most recent ones — the result is a suffix of the deduplicated append);
after eviction every key remaining in either cache is in the recency
window or in the render lock set, and eviction never removes an artifact
for a locked page.  A page inside the current cache window, however, may
be evicted when it is neither recent nor locked. -/
theorem recency_eviction_amended (raster textCache : CacheMap)
    (recency : List ℕ) (lock : Finset ℕ) (p maxPagesKept : ℕ)
    (hm : 1 ≤ maxPagesKept) :
    p ∈ recordFreshRender recency p maxPagesKept ∧
    (recordFreshRender recency p maxPagesKept).length ≤ maxPagesKept ∧
    (recordFreshRender recency p maxPagesKept).Sublist
      (recency.filter (fun q => q ≠ p) ++ [p]) ∧
    (recency.Nodup → (recordFreshRender recency p maxPagesKept).Nodup) ∧
    (∀ k c, (k, c) ∈ (evictCaches raster textCache
        (recordFreshRender recency p maxPagesKept) lock).1 →
      k ∈ recordFreshRender recency p maxPagesKept ∨ k ∈ lock) ∧
    (∀ k c, (k, c) ∈ (evictCaches raster textCache
        (recordFreshRender recency p maxPagesKept) lock).2 →
      k ∈ recordFreshRender recency p maxPagesKept ∨ k ∈ lock) ∧
    (∀ k c, (k, c) ∈ raster → k ∈ lock →
      (k, c) ∈ (evictCaches raster textCache
        (recordFreshRender recency p maxPagesKept) lock).1) ∧
    (∀ k c, (k, c) ∈ textCache → k ∈ lock →
      (k, c) ∈ (evictCaches raster textCache
        (recordFreshRender recency p maxPagesKept) lock).2) := by
  constructor
  · simp only [recordFreshRender]
    split
    · apply mem_drop_append_last
      simp only [List.length_append, List.length_cons, List.length_nil]
      omega
    · simp
  constructor
  · simp only [recordFreshRender]
    split
    · rw [List.length_drop]
      omega
    · omega
  constructor
  · simp only [recordFreshRender]
    split
    · exact List.drop_sublist _ _
    · exact List.Sublist.refl _
  constructor
  · intro hnod
    have hnd : ((recency.filter (fun q => q ≠ p)) ++ [p]).Nodup := by
      refine List.Nodup.append (hnod.filter _) (List.nodup_singleton p) ?_
      intro a ha hb
      simp only [List.mem_singleton] at hb
      subst hb
      have := List.of_mem_filter ha
      simp at this
    simp only [recordFreshRender]
    split
    · exact List.Nodup.sublist (List.drop_sublist _ _) hnd
    · exact hnd
  refine ⟨?_, ?_, ?_, ?_⟩
  · intro k c hkc
    obtain ⟨-, hpred⟩ := List.mem_filter.mp hkc
    simpa using hpred
  · intro k c hkc
    obtain ⟨-, hpred⟩ := List.mem_filter.mp hkc
    simpa using hpred
  · intro k c hkc hlock
    exact List.mem_filter.mpr ⟨hkc, by simp [hlock]⟩
  · intro k c hkc hlock
    exact List.mem_filter.mpr ⟨hkc, by simp [hlock]⟩

/-- C3 witness: the recency/eviction theorem applied to concrete caches
holding pages 1 and 5, recency window [3, 4, 5, 6], lock {7}, fresh render
of page 7 and maxPagesKept = 5. -/
theorem recency_eviction_amended_witness :
    7 ∈ recordFreshRender [3, 4, 5, 6] 7 5 ∧
    (recordFreshRender [3, 4, 5, 6] 7 5).length ≤ 5 ∧
    (recordFreshRender [3, 4, 5, 6] 7 5).Sublist
      (([3, 4, 5, 6] : List ℕ).filter (fun q => q ≠ 7) ++ [7]) ∧
    (([3, 4, 5, 6] : List ℕ).Nodup → (recordFreshRender [3, 4, 5, 6] 7 5).Nodup) ∧
    (∀ k c, (k, c) ∈ (evictCaches [(1, renderedCanvas 1), (5, renderedCanvas 5)]
        [] (recordFreshRender [3, 4, 5, 6] 7 5) {7}).1 →
      k ∈ recordFreshRender [3, 4, 5, 6] 7 5 ∨ k ∈ ({7} : Finset ℕ)) ∧
    (∀ k c, (k, c) ∈ (evictCaches [(1, renderedCanvas 1), (5, renderedCanvas 5)]
        [] (recordFreshRender [3, 4, 5, 6] 7 5) {7}).2 →
      k ∈ recordFreshRender [3, 4, 5, 6] 7 5 ∨ k ∈ ({7} : Finset ℕ)) ∧
    (∀ k c, (k, c) ∈ ([(1, renderedCanvas 1), (5, renderedCanvas 5)] : CacheMap) →
      k ∈ ({7} : Finset ℕ) →
      (k, c) ∈ (evictCaches [(1, renderedCanvas 1), (5, renderedCanvas 5)]
        [] (recordFreshRender [3, 4, 5, 6] 7 5) {7}).1) ∧
    (∀ k c, (k, c) ∈ ([] : CacheMap) → k ∈ ({7} : Finset ℕ) →
      (k, c) ∈ (evictCaches [(1, renderedCanvas 1), (5, renderedCanvas 5)]
        [] (recordFreshRender [3, 4, 5, 6] 7 5) {7}).2) :=
  recency_eviction_amended [(1, renderedCanvas 1), (5, renderedCanvas 5)] []
    [3, 4, 5, 6] {7} 7 5 (by norm_num)

/-- C9: the background prefetcher never runs.  The effect body executes
isCancelled = true immediately after starting the async computeLayout
(instead of returning it as the React cleanup), so by the time
schedulePreRendering(1) runs the staleness check is already true and the
loop exits at once: for a fresh 2-page document with an empty cache it
renders nothing (first two conjuncts).  Had the flag still been false, the
loop would have behaved exactly as the claim describes: rendering pages 1
and 2 in order into the cache, and skipping an already-cached page 1
straight to page 2 (remaining conjuncts). -/
theorem prefetch_cancelled_before_start :
    (∀ (doc : PdfDoc) (cache : CacheMap),
      layoutEffectPrefetch doc cache = (cache, [])) ∧
    layoutEffectPrefetch docNine [] = ([], []) ∧
    (schedulePreRendering docNine false [] 1).2 = [1, 2] ∧
    mapGet (schedulePreRendering docNine false [] 1).1 1 =
      some (renderedCanvas 1) ∧
    mapGet (schedulePreRendering docNine false [] 1).1 2 =
      some (renderedCanvas 2) ∧
    (schedulePreRendering docNine false
      (mapSet [] 1 (renderedCanvas 1)) 1).2 = [2] := by
  have hcancel : ∀ (doc : PdfDoc) (cache : CacheMap),
      layoutEffectPrefetch doc cache = (cache, []) := by
    intro doc cache
    unfold layoutEffectPrefetch schedulePreRendering
    cases h : doc.numPages + 1 - 1 with
    | zero => rw [schedulePreRenderingGo]
    | succ n =>
      rw [schedulePreRenderingGo]
      simp
  refine ⟨hcancel, hcancel docNine [], ?_, ?_, ?_, ?_⟩ <;>
    norm_num [schedulePreRendering, schedulePreRenderingGo, docNine,
      PdfDoc.numPages, mapGet, mapSet, renderCanvas, renderCanvasTry, getPage,
      renderedCanvas, blankCanvas]

/-- C5 witness: the amended theorem applied to Scenario D's failing page 3
(index 2) of the 3-page fixture, starting from the empty state. -/
theorem renderFailure_resolves_no_cache_witness :
    (∀ c : CacheMap, renderCanvas docFail (2 + 1) c =
      (c, blankCanvas (2 + 1))) ∧
    (settleAll docFail (processPageSync pdFail 2 0 2000 0 2 initialState).state
      (processPageSync pdFail 2 0 2000 0 2 initialState).tasks).cache =
      initialState.cache ∧
    mapGet (settleAll docFail
      (processPageSync pdFail 2 0 2000 0 2 initialState).state
      (processPageSync pdFail 2 0 2000 0 2 initialState).tasks).cache (2 + 1)
      = none ∧
    (2 + 1) ∉ (settleAll docFail
      (processPageSync pdFail 2 0 2000 0 2 initialState).state
      (processPageSync pdFail 2 0 2000 0 2 initialState).tasks).lock :=
  renderFailure_resolves_no_cache docFail pdFail 2 0 2000 0 2 initialState
    (by norm_num) (by norm_num [initialState, mapGet])
    (by norm_num [getPage, docFail])

end PdfViewer
